import Mathlib

/-!
# pod-restarter: shallow embedding of the reconciliation core

This file embeds, in Lean 4, the core logic of the `pod-restarter-go`
repository (package `kubernetes`, final `KubeClient` revision, plus the
candidate loop of `main.go`) and proves properties of that embedding.

Modelling conventions:
* Go `string` is `String`; `v1.PodPhase` is a string type in Go and is
  modelled as `String`.
* `time.Time` is modelled as `Int` (nanoseconds since the epoch);
  `t1.Before(t2)` is `t1 < t2`; `time.Duration(n) * time.Second` is
  `n * 1000000000`.
* Go `nil`-able pointers become `Option`.
* The cluster visible through the client-go API is modelled as a list of
  Pods (`List V1Pod`); `api.Pods(ns).Get` is lookup by name and namespace,
  `api.Pods(ns).Delete` removes by name and namespace or reports not-found.
  Transport-level failures of the API server are outside this state model
  (they correspond to the fake-clientset test environment of the repo).
* Functions returning Go `error` become `Except`.  Each distinct
  `errors.New` site along the validation pipeline is mirrored by one
  constructor of `RejectReason`; the formatted message text (a log-
  presentation concern) is not modelled, but the data interpolated into it
  (names, namespaces, timestamps) is carried by the constructors.
* Logging (`log.Printf`) is side-effect-free tracing and is dropped.
-/

namespace PodRestarter

/-- `metav1.OwnerReference` (the fields the program stores). -/
structure OwnerReference where
  apiVersion : String
  kind : String
  name : String
  uid : String
deriving Repr, DecidableEq

/-- `v1.ContainerStateTerminated` (the fields the program reads). -/
structure ContainerStateTerminated where
  exitCode : Int
  reason : String
deriving Repr, DecidableEq

/-- `v1.ContainerStatus`: the checks only inspect `State.Terminated`
(`none` models the Go `nil` pointer). -/
structure ContainerStatus where
  name : String
  terminated : Option ContainerStateTerminated
deriving Repr, DecidableEq

/-- `time.Time` as nanoseconds since the epoch. -/
abbrev Time := Int

/-- A Pod as stored in the cluster: the fields of `v1.Pod` that the
program reads (`ObjectMeta` and `Status`). -/
structure V1Pod where
  UID : String
  Name : String
  Namespace : String
  ResourceVersion : String
  Phase : String
  ContainerStatuses : List ContainerStatus
  OwnerReferences : List OwnerReference
  CreationTimestamp : Time
  DeletionTimestamp : Option Time
deriving Repr, DecidableEq

/-- `PodDetails` (types.go): the snapshot struct the validation checks
run against. -/
structure PodDetails where
  UID : String
  PodName : String
  PodNamespace : String
  ResourceVersion : String
  Phase : String
  ContainerStatuses : List ContainerStatus
  OwnerReferences : List OwnerReference
  CreationTimestamp : Time
  DeletionTimestamp : Option Time
deriving Repr, DecidableEq

/-- An Event as returned by `api.Events(ns).List` — the fields of
`v1.Event` that `GetEvents` reads (`InvolvedObject`, `Reason`, `Type`,
`Message`, timestamps). -/
structure V1Event where
  InvolvedUID : String
  InvolvedName : String
  InvolvedNamespace : String
  InvolvedResourceVersion : String
  Reason : String
  EventType : String
  Message : String
  FirstTimestamp : Time
  LastTimestamp : Time
deriving Repr, DecidableEq

/-- `PodEvent` (types.go): the flattened Event record the program builds. -/
structure PodEvent where
  UID : String
  PodName : String
  PodNamespace : String
  ResourceVersion : String
  Reason : String
  EventType : String
  Message : String
  FirstTimestamp : Time
  LastTimestamp : Time
deriving Repr, DecidableEq

/-- Go `strings.Contains s substr`: `substr` occurs contiguously inside
`s` (case-sensitive, unanchored). -/
def stringsContains (s substr : String) : Bool :=
  decide (substr.toList <:+: s.toList)

/-- The filter of `GetEvents` (kubernetes.go line 106):
`item.Reason == eventReason && strings.Contains(item.Message, errorMessage)`. -/
def eventMatches (eventReason errorMessage : String) (item : V1Event) : Bool :=
  item.Reason == eventReason && stringsContains item.Message errorMessage

/-- The `PodEvent` literal built inside the loop of `GetEvents`
(kubernetes.go lines 107-117). -/
def toPodEvent (item : V1Event) : PodEvent :=
  { UID := item.InvolvedUID
    PodName := item.InvolvedName
    PodNamespace := item.InvolvedNamespace
    ResourceVersion := item.InvolvedResourceVersion
    Reason := item.Reason
    EventType := item.EventType
    Message := item.Message
    FirstTimestamp := item.FirstTimestamp
    LastTimestamp := item.LastTimestamp }

/-- `GetEvents` (kubernetes.go lines 84-122), from the raw result of
`api.Events(namespace).List` onwards: on a fetch error the error is
wrapped and returned; otherwise events matching reason and message are
kept, in list order. -/
def GetEvents (apiResult : Except String (List V1Event))
    (eventReason errorMessage : String) : Except String (List PodEvent) :=
  match apiResult with
  | .error err => .error ("Could not get Events in namespace: " ++ err)
  | .ok items => .ok ((items.filter (eventMatches eventReason errorMessage)).map toPodEvent)

/-- `RemoveOlderEvents` (kubernetes.go lines 410-420): keep the events
whose `LastTimestamp` is not `Before` (strictly less than) `eventMaxAge`. -/
def RemoveOlderEvents (events : List PodEvent) (eventMaxAge : Time) : List PodEvent :=
  events.filter (fun event => ! decide (event.LastTimestamp < eventMaxAge))

/-- `contains` (kubernetes.go lines 358-365): linear membership test. -/
def contains (elems : List String) (v : String) : Bool :=
  elems.any (fun s => v == s)

/-- Go `map[string]string` assignment `m[k] = v`: overwrite the entry for
`k` when present, create it otherwise.  The map is represented as an
association list whose keys are pairwise distinct. -/
def mapAssign (m : List (String × String)) (k v : String) : List (String × String) :=
  if m.any (fun kv => kv.1 == k) then
    m.map (fun kv => if kv.1 == k then (k, v) else kv)
  else
    m ++ [(k, v)]

/-- The loop of `GetUniqueListOfPods` (kubernetes.go lines 399-405),
with the map and the seen-UID slice as explicit accumulators. -/
def GetUniqueListOfPodsAux :
    List PodEvent → List (String × String) → List String → List (String × String)
  | [], uniquePodList, _ => uniquePodList
  | event :: rest, uniquePodList, uniqueUIDsList =>
    if contains uniqueUIDsList event.UID then
      GetUniqueListOfPodsAux rest uniquePodList uniqueUIDsList
    else
      GetUniqueListOfPodsAux rest (mapAssign uniquePodList event.PodName event.PodNamespace)
        (uniqueUIDsList ++ [event.UID])

/-- `GetUniqueListOfPods` (kubernetes.go lines 393-407): dedup by UID,
record `PodName ↦ PodNamespace` in a Go map. -/
def GetUniqueListOfPods (events : List PodEvent) : List (String × String) :=
  GetUniqueListOfPodsAux events [] []

/-- The staleness stage of `GenerateToBeDeletedPodList`
(kubernetes.go lines 234-237): filter only when `counter > 0`. -/
def stalenessStage (eventList : List PodEvent) (counter : Int) (eventMaxAge : Time) :
    List PodEvent :=
  if counter > 0 then RemoveOlderEvents eventList eventMaxAge else eventList

/-- `GenerateToBeDeletedPodList` (kubernetes.go lines 223-248), from the
raw Event-list result onwards.  `eventMaxAge` is
`time.Now().Add(-time.Duration(pollingInterval) * time.Second)`, with
`now` in nanoseconds. -/
def GenerateToBeDeletedPodList (apiResult : Except String (List V1Event))
    (eventReason errorMessage : String) (counter pollingInterval : Int) (now : Time) :
    Except String (List (String × String)) :=
  match GetEvents apiResult eventReason errorMessage with
  | .error err => .error err
  | .ok eventList =>
    let eventMaxAge : Time := now - pollingInterval * 1000000000
    .ok (GetUniqueListOfPods (stalenessStage eventList counter eventMaxAge))

/-- The distinct `errors.New` sites reachable from `PodChecks`
(utility: one constructor per site, carrying the data the Go message
interpolates). -/
inductive RejectReason where
  /-- "Pod %s/%s does not exist anymore" (`GetPodDetails`, not-found). -/
  | gone (podNamespace podName : String)
  /-- "Pod does not have owner/controller: %s/%s" (`VerifyPodHasOwner`). -/
  | noOwner (podNamespace podName : String)
  /-- "Pod has already been scheduled to be deleted: %s/%s %v"
  (`VerifyPodScheduledToBeDeleted`). -/
  | alreadyDeleting (podNamespace podName : String) (ts : Time)
  /-- "Pod is in a Healthy State: %s/%s" (`PodChecks`). -/
  | alreadyHealthy (podNamespace podName : String)
deriving Repr, DecidableEq

/-- `api.Pods(namespace).Get(ctx, pod, ...)`: lookup by name within the
namespace. -/
def clusterGetPod (cluster : List V1Pod) (pod podNamespace : String) : Option V1Pod :=
  cluster.find? (fun p => p.Name == pod && p.Namespace == podNamespace)

/-- The `PodDetails` literal `GetPodDetails` builds from the fetched Pod
(kubernetes.go lines 193-202).  The source does not set
`DeletionTimestamp`, so it keeps the Go zero value `nil`. -/
def toPodDetails (item : V1Pod) : PodDetails :=
  { UID := item.UID
    PodName := item.Name
    PodNamespace := item.Namespace
    ResourceVersion := item.ResourceVersion
    Phase := item.Phase
    ContainerStatuses := item.ContainerStatuses
    OwnerReferences := item.OwnerReferences
    CreationTimestamp := item.CreationTimestamp
    DeletionTimestamp := none }

/-- `GetPodDetails` (kubernetes.go lines 169-204): not-found becomes the
"does not exist anymore" error, success projects the Pod to `PodDetails`. -/
def GetPodDetails (cluster : List V1Pod) (pod podNamespace : String) :
    Except RejectReason PodDetails :=
  match clusterGetPod cluster pod podNamespace with
  | none => .error (.gone podNamespace pod)
  | some item => .ok (toPodDetails item)

/-- `VerifyPodHasOwner` (kubernetes.go lines 368-377). -/
def VerifyPodHasOwner (p : PodDetails) : Except RejectReason Unit :=
  if p.OwnerReferences.length > 0 then .ok ()
  else .error (.noOwner p.PodNamespace p.PodName)

/-- `VerifyPodScheduledToBeDeleted` (kubernetes.go lines 380-390). -/
def VerifyPodScheduledToBeDeleted (p : PodDetails) : Except RejectReason Unit :=
  match p.DeletionTimestamp with
  | some ts => .error (.alreadyDeleting p.PodNamespace p.PodName ts)
  | none => .ok ()

/-- The `Running` loop of `VerifyPodStatus` (kubernetes.go lines 299-312):
skip containers with no terminated sub-state, skip terminated
`("Completed", 0)`, error out on everything else; the error value is the
offending status (the Go code formats the Pod and its statuses into the
message, which is not modelled). -/
def runningContainersCheck : List ContainerStatus → Except ContainerStatus Unit
  | [] => .ok ()
  | cst :: rest =>
    match cst.terminated with
    | none => runningContainersCheck rest
    | some t =>
      if t.reason == "Completed" && t.exitCode == 0 then
        runningContainersCheck rest
      else
        .error cst

/-- Health classification outcome of `VerifyPodStatus`: in the source,
`nil` means healthy and a non-nil error means unhealthy; the unhealthy
constructor carries the phase the message reports. -/
inductive Health where
  | healthy
  | unhealthy (phase : String)
deriving Repr, DecidableEq

/-- `VerifyPodStatus` (kubernetes.go lines 285-355).  The Go `switch` on
the string-typed `Phase` is sequential comparison with each case label,
with a default branch ("???????? state") that also returns an error. -/
def VerifyPodStatus (p : PodDetails) : Health :=
  if p.Phase == "Pending" then .unhealthy p.Phase
  else if p.Phase == "Running" then
    if p.ContainerStatuses.length != 0 then
      match runningContainersCheck p.ContainerStatuses with
      | .error _ => .unhealthy p.Phase
      | .ok _ => .healthy
    else
      .healthy
  else if p.Phase == "Failed" then .unhealthy p.Phase
  else if p.Phase == "Succeeded" then .healthy
  else if p.Phase == "Unknown" then .unhealthy p.Phase
  else .unhealthy p.Phase

/-- `PodChecks` (kubernetes.go lines 255-282): existence, ownership,
deletion-pending, then health; an unhealthy pod yields `ok` (eligible
for deletion), a healthy pod yields the `AlreadyHealthy` rejection built
from the *arguments* `podNamespace`/`podName`. -/
def PodChecks (cluster : List V1Pod) (podName podNamespace : String) :
    Except RejectReason Unit :=
  match GetPodDetails cluster podName podNamespace with
  | .error err => .error err
  | .ok podInfo =>
    match VerifyPodHasOwner podInfo with
    | .error err => .error err
    | .ok _ =>
      match VerifyPodScheduledToBeDeleted podInfo with
      | .error err => .error err
      | .ok _ =>
        match VerifyPodStatus podInfo with
        | .unhealthy _ => .ok ()
        | .healthy => .error (.alreadyHealthy podNamespace podName)

/-- The error a `api.Pods(namespace).Delete` call can report in the
cluster-state model: the Pod is not there. -/
inductive DeleteAPIError where
  | notFound (podNamespace podName : String)
deriving Repr, DecidableEq

/-- `api.Pods(namespace).Delete(ctx, pod, ...)`: remove the Pod, or
report not-found when no Pod with that name exists in the namespace. -/
def clusterDeletePod (cluster : List V1Pod) (pod podNamespace : String) :
    Except DeleteAPIError (List V1Pod) :=
  match clusterGetPod cluster pod podNamespace with
  | none => .error (.notFound podNamespace pod)
  | some _ => .ok (cluster.filter (fun p => ! (p.Name == pod && p.Namespace == podNamespace)))

/-- `DeletePod` (kubernetes.go lines 207-220): issue the delete call and
return its error unchanged (`if err != nil { return err }`); on success
log and return `nil`. -/
def DeletePod (cluster : List V1Pod) (pod podNamespace : String) :
    Except DeleteAPIError (List V1Pod) :=
  match clusterDeletePod cluster pod podNamespace with
  | .error err => .error err
  | .ok cluster' => .ok cluster'

/-- What the per-candidate loop body of `main.go` (lines 87-105) does
with one candidate: a rejection is logged and skipped, dry-run logs the
would-be deletion, otherwise the delete is issued and its error, if any,
is logged. -/
inductive CandidateOutcome where
  | rejected (r : RejectReason)
  | dryRunWouldDelete (podNamespace podName : String)
  | deleted (podNamespace podName : String)
  | deleteFailed (e : DeleteAPIError)
deriving Repr, DecidableEq

/-- Result of one candidate-loop body: the logged outcome, the cluster
afterwards, and every invocation of the facade delete call made on the
way (the observation the spec's mock call-count assertion reads). -/
structure ActResult where
  outcome : CandidateOutcome
  cluster : List V1Pod
  deleteCalls : List (String × String)
deriving Repr, DecidableEq

/-- The loop body of `main.go` lines 87-105 for one candidate `(pod, ns)`:
`PodChecks`; on error log and continue; in dry-run mode log
"[DRY-RUN]: Would have deleted Pod" and continue; otherwise `DeletePod`
and log its error if any. -/
def actOnCandidate (cluster : List V1Pod) (dryRunMode : Bool) (pod ns : String) :
    ActResult :=
  match PodChecks cluster pod ns with
  | .error r => ⟨.rejected r, cluster, []⟩
  | .ok _ =>
    if dryRunMode then ⟨.dryRunWouldDelete ns pod, cluster, []⟩
    else
      match DeletePod cluster pod ns with
      | .error e => ⟨.deleteFailed e, cluster, [(pod, ns)]⟩
      | .ok cluster' => ⟨.deleted ns pod, cluster', [(pod, ns)]⟩

/-- The whole `for pod, ns := range uniquePodList` loop of `main.go`
lines 87-105: candidates are processed strictly sequentially, every
candidate is processed (no outcome aborts the loop), and the facade
delete invocations are accumulated in order. -/
def processCandidates (cluster : List V1Pod) (dryRunMode : Bool) :
    List (String × String) → List CandidateOutcome × List V1Pod × List (String × String)
  | [] => ([], cluster, [])
  | (pod, ns) :: rest =>
    let r := actOnCandidate cluster dryRunMode pod ns
    let next := processCandidates r.cluster dryRunMode rest
    (r.outcome :: next.1, next.2.1, r.deleteCalls ++ next.2.2)

/-! ## Basic lemmas -/

theorem stringsContains_iff (s substr : String) :
    stringsContains s substr = true ↔ substr.toList <:+: s.toList := by
  simp [stringsContains]

theorem eventMatches_iff (eventReason errorMessage : String) (item : V1Event) :
    eventMatches eventReason errorMessage item = true ↔
      item.Reason = eventReason ∧ errorMessage.toList <:+: item.Message.toList := by
  simp [eventMatches, stringsContains]

/-! ## C3 — the Event Matcher -/

/-- C3: for every Event list, configured reason and configured message
substring, `GetEvents` returns exactly those Events whose reason equals
the configured reason and whose message contains the configured substring
as a case-sensitive unanchored substring (each flattened by
`toPodEvent`); when no Event matches, it returns an empty result and no
error. -/
theorem getEvents_returns_exactly_matches
    (items : List V1Event) (eventReason errorMessage : String) (out : List PodEvent)
    (h : GetEvents (Except.ok items) eventReason errorMessage = Except.ok out) :
    (∀ pe, pe ∈ out ↔ ∃ item, item ∈ items ∧ item.Reason = eventReason ∧
        errorMessage.toList <:+: item.Message.toList ∧ pe = toPodEvent item)
    ∧ ((∀ item ∈ items, item.Reason ≠ eventReason ∨
        ¬ errorMessage.toList <:+: item.Message.toList) → out = []) := by
  have hout : out = (items.filter (eventMatches eventReason errorMessage)).map toPodEvent := by
    simpa [GetEvents] using h.symm
  subst hout
  constructor
  · intro pe
    constructor
    · intro hpe
      rcases List.mem_map.mp hpe with ⟨item, hitem, rfl⟩
      rcases List.mem_filter.mp hitem with ⟨hmem, hmatch⟩
      rcases (eventMatches_iff _ _ _).mp hmatch with ⟨hr, hm⟩
      exact ⟨item, hmem, hr, hm, rfl⟩
    · rintro ⟨item, hmem, hr, hm, rfl⟩
      exact List.mem_map.mpr
        ⟨item, List.mem_filter.mpr ⟨hmem, (eventMatches_iff _ _ _).mpr ⟨hr, hm⟩⟩, rfl⟩
  · intro hnone
    have : items.filter (eventMatches eventReason errorMessage) = [] := by
      apply List.filter_eq_nil_iff.mpr
      intro item hmem
      intro hmatch
      rcases (eventMatches_iff _ _ _).mp hmatch with ⟨hr, hm⟩
      rcases hnone item hmem with hne | hnc
      · exact hne hr
      · exact hnc hm
    simp [this]

/-- Witness for C3 at a concrete input: one matching and one
non-matching Event. -/
theorem getEvents_returns_exactly_matches_witness :
    toPodEvent ⟨"u1", "foo", "default", "1", "R", "Warning", "xmz", 0, 5⟩ ∈
      ([toPodEvent ⟨"u1", "foo", "default", "1", "R", "Warning", "xmz", 0, 5⟩] : List PodEvent) := by
  have h := getEvents_returns_exactly_matches
    [⟨"u1", "foo", "default", "1", "R", "Warning", "xmz", 0, 5⟩,
     ⟨"u2", "bar", "default", "1", "S", "Warning", "abc", 0, 5⟩]
    "R" "m" [toPodEvent ⟨"u1", "foo", "default", "1", "R", "Warning", "xmz", 0, 5⟩] rfl
  exact (h.1 _).mpr ⟨_, by simp, rfl, by decide, rfl⟩

/-! ## C4 — the Staleness Filter -/

/-- C4: on iteration counter `0` the staleness stage of
`GenerateToBeDeletedPodList` returns the matched-Event list unchanged;
on every counter `> 0` it retains exactly those Events whose
`LastTimestamp` is at least the cutoff `now − pollingInterval`
(seconds converted to nanoseconds), excluding all older Events. -/
theorem staleness_filter_spec (events : List PodEvent) (counter : Int)
    (now pollingInterval : Int) :
    (counter = 0 →
      stalenessStage events counter (now - pollingInterval * 1000000000) = events)
    ∧ (0 < counter →
      ∀ e, e ∈ stalenessStage events counter (now - pollingInterval * 1000000000) ↔
        e ∈ events ∧ now - pollingInterval * 1000000000 ≤ e.LastTimestamp) := by
  constructor
  · intro h0
    simp [stalenessStage, h0]
  · intro hpos e
    simp [stalenessStage, hpos, RemoveOlderEvents, List.mem_filter, not_lt]

/-- Witness for C4 at a concrete input: counter `1`, one fresh and one
stale Event, `now = 3000000000`, `pollingInterval = 1`, so the cutoff is
`2000000000` and only the fresh Event survives. -/
theorem staleness_filter_spec_witness :
    (⟨"u1", "a", "ns", "1", "R", "W", "m", 0, 2500000000⟩ : PodEvent) ∈
      stalenessStage
        [⟨"u1", "a", "ns", "1", "R", "W", "m", 0, 2500000000⟩,
         ⟨"u2", "b", "ns", "1", "R", "W", "m", 0, 1000000000⟩]
        1 ((3000000000 : Int) - 1 * 1000000000) := by
  have h := (staleness_filter_spec
    [⟨"u1", "a", "ns", "1", "R", "W", "m", 0, 2500000000⟩,
     ⟨"u2", "b", "ns", "1", "R", "W", "m", 0, 1000000000⟩]
    1 3000000000 1).2 (by norm_num)
  exact (h _).mpr ⟨by simp, by norm_num⟩

/-! ## The validation pipeline on a fetched Pod -/

theorem getPodDetails_of_find (cluster : List V1Pod) (podName podNamespace : String)
    (p : V1Pod) (hfind : clusterGetPod cluster podName podNamespace = some p) :
    GetPodDetails cluster podName podNamespace = Except.ok (toPodDetails p) := by
  simp [GetPodDetails, hfind]

/-- The snapshot built by `GetPodDetails` never carries the deletion
timestamp of the fetched Pod: the source omits the field, so it stays at
the Go zero value `nil`. -/
theorem toPodDetails_deletionTimestamp (p : V1Pod) :
    (toPodDetails p).DeletionTimestamp = none := rfl

@[simp] theorem toPodDetails_proj_Phase (p : V1Pod) :
    (toPodDetails p).Phase = p.Phase := rfl

@[simp] theorem toPodDetails_proj_ContainerStatuses (p : V1Pod) :
    (toPodDetails p).ContainerStatuses = p.ContainerStatuses := rfl

@[simp] theorem toPodDetails_proj_OwnerReferences (p : V1Pod) :
    (toPodDetails p).OwnerReferences = p.OwnerReferences := rfl

@[simp] theorem toPodDetails_proj_PodName (p : V1Pod) :
    (toPodDetails p).PodName = p.Name := rfl

@[simp] theorem toPodDetails_proj_PodNamespace (p : V1Pod) :
    (toPodDetails p).PodNamespace = p.Namespace := rfl

@[simp] theorem toPodDetails_proj_DeletionTimestamp (p : V1Pod) :
    (toPodDetails p).DeletionTimestamp = none := rfl

/-! ## C5 — unhealthy phases are eligible -/

/-- C5: for every Pod the fetch finds, with a non-empty owner-reference
list, a null deletion timestamp and phase `Pending`, `Failed` or
`Unknown`, `PodChecks` returns success (the Pod is eligible for the
Deletion Actuator). -/
theorem podChecks_eligible_for_unhealthy_phase
    (cluster : List V1Pod) (podName podNamespace : String) (p : V1Pod)
    (hfind : clusterGetPod cluster podName podNamespace = some p)
    (howner : p.OwnerReferences ≠ [])
    (_hdel : p.DeletionTimestamp = none)
    (hphase : p.Phase = "Pending" ∨ p.Phase = "Failed" ∨ p.Phase = "Unknown") :
    PodChecks cluster podName podNamespace = Except.ok () := by
  have hlen : 0 < p.OwnerReferences.length := List.length_pos.mpr howner
  rcases hphase with hp | hp | hp <;>
    simp [PodChecks, getPodDetails_of_find cluster podName podNamespace p hfind,
      VerifyPodHasOwner, VerifyPodScheduledToBeDeleted, VerifyPodStatus,
      toPodDetails, hlen, hp]

/-- Witness for C5: a concrete owned Pending Pod is eligible. -/
theorem podChecks_eligible_for_unhealthy_phase_witness :
    PodChecks
      [{ UID := "u1", Name := "foo", Namespace := "default", ResourceVersion := "1",
         Phase := "Pending", ContainerStatuses := [],
         OwnerReferences := [⟨"apps/v1", "ReplicaSet", "rs", "u9"⟩],
         CreationTimestamp := 0, DeletionTimestamp := none }]
      "foo" "default" = Except.ok () :=
  podChecks_eligible_for_unhealthy_phase _ _ _ _ rfl (by decide) rfl (Or.inl rfl)

/-! ## C7 — no owner short-circuits the pipeline -/

/-- C7: for every Pod the fetch finds whose owner-reference list is
empty, `PodChecks` rejects with the no-owner error, whatever the phase
and deletion timestamp of the Pod are: the ownership check runs before
the deletion-pending and health checks. -/
theorem podChecks_rejects_unowned
    (cluster : List V1Pod) (podName podNamespace : String) (p : V1Pod)
    (hfind : clusterGetPod cluster podName podNamespace = some p)
    (howner : p.OwnerReferences = []) :
    PodChecks cluster podName podNamespace =
      Except.error (.noOwner p.Namespace p.Name) := by
  simp [PodChecks, getPodDetails_of_find cluster podName podNamespace p hfind,
    VerifyPodHasOwner, toPodDetails, howner]

/-- Witness for C7: a concrete ownerless Running Pod with an in-flight
deletion is rejected for ownership, not for anything else. -/
theorem podChecks_rejects_unowned_witness :
    PodChecks
      [{ UID := "u1", Name := "foo", Namespace := "default", ResourceVersion := "1",
         Phase := "Running", ContainerStatuses := [],
         OwnerReferences := [],
         CreationTimestamp := 0, DeletionTimestamp := some 7 }]
      "foo" "default" = Except.error (.noOwner "default" "foo") :=
  podChecks_rejects_unowned _ "foo" "default"
    { UID := "u1", Name := "foo", Namespace := "default", ResourceVersion := "1",
      Phase := "Running", ContainerStatuses := [],
      OwnerReferences := [],
      CreationTimestamp := 0, DeletionTimestamp := some 7 }
    rfl rfl

/-! ## C6 — the health classifier on Running Pods -/

/-- The per-container acceptance condition of the `Running` loop: no
terminated sub-state, or terminated with reason `"Completed"` and exit
code `0`. -/
def containerFine (cst : ContainerStatus) : Bool :=
  match cst.terminated with
  | none => true
  | some t => t.reason == "Completed" && t.exitCode == 0

theorem runningContainersCheck_ok_of_all_fine
    (l : List ContainerStatus) (h : l.all containerFine = true) :
    runningContainersCheck l = Except.ok () := by
  induction l with
  | nil => rfl
  | cons cst rest ih =>
    simp only [List.all_cons, Bool.and_eq_true] at h
    obtain ⟨hcst, hrest⟩ := h
    rcases hterm : cst.terminated with _ | t
    · simpa [runningContainersCheck, hterm] using ih hrest
    · have hfine : (t.reason == "Completed" && t.exitCode == 0) = true := by
        simpa [containerFine, hterm] using hcst
      simpa [runningContainersCheck, hterm, hfine] using ih hrest

theorem runningContainersCheck_error_of_bad
    (pre : List ContainerStatus) (bad : ContainerStatus) (post : List ContainerStatus)
    (hbad : containerFine bad = false) :
    ∃ c, runningContainersCheck (pre ++ bad :: post) = Except.error c := by
  induction pre with
  | nil =>
    rcases hterm : bad.terminated with _ | t
    · simp [containerFine, hterm] at hbad
    · have hnf : (t.reason == "Completed" && t.exitCode == 0) = false := by
        simpa [containerFine, hterm] using hbad
      exact ⟨bad, by simp [runningContainersCheck, hterm, hnf]⟩
  | cons cst rest ih =>
    rcases hterm : cst.terminated with _ | t
    · simpa [runningContainersCheck, hterm] using ih
    · by_cases hfine : (t.reason == "Completed" && t.exitCode == 0) = true
      · simpa [runningContainersCheck, hterm, hfine] using ih
      · exact ⟨cst, by simp [runningContainersCheck, hterm, hfine]⟩

theorem runningContainersCheck_short_circuit
    (pre : List ContainerStatus) (bad : ContainerStatus) (post : List ContainerStatus)
    (hbad : containerFine bad = false) :
    runningContainersCheck (pre ++ bad :: post) =
      runningContainersCheck (pre ++ [bad]) := by
  induction pre with
  | nil =>
    rcases hterm : bad.terminated with _ | t
    · simp [containerFine, hterm] at hbad
    · have hnf : (t.reason == "Completed" && t.exitCode == 0) = false := by
        simpa [containerFine, hterm] using hbad
      simp [runningContainersCheck, hterm, hnf]
  | cons cst rest ih =>
    rcases hterm : cst.terminated with _ | t
    · simpa [runningContainersCheck, hterm] using ih
    · by_cases hfine : (t.reason == "Completed" && t.exitCode == 0) = true
      · simpa [runningContainersCheck, hterm, hfine] using ih
      · simp [runningContainersCheck, hterm, hfine]

/-- C6: for every Pod the fetch finds, owned and with phase `Running`:
if every container status is acceptable (no terminated sub-state, or
terminated `("Completed", 0)`) — which includes the empty status list —
the classifier is Healthy and `PodChecks` rejects with the
already-healthy error; and whenever some container status has any other
terminated sub-state, `PodChecks` returns success (Unhealthy) and the
container scan short-circuits: its verdict does not depend on the
statuses after the offending one. -/
theorem podChecks_running_health
    (cluster : List V1Pod) (podName podNamespace : String) (p : V1Pod)
    (hfind : clusterGetPod cluster podName podNamespace = some p)
    (howner : p.OwnerReferences ≠ [])
    (_hdel : p.DeletionTimestamp = none)
    (hphase : p.Phase = "Running") :
    (p.ContainerStatuses.all containerFine = true →
      PodChecks cluster podName podNamespace =
        Except.error (.alreadyHealthy podNamespace podName))
    ∧ (∀ pre bad post, p.ContainerStatuses = pre ++ bad :: post →
        containerFine bad = false →
        PodChecks cluster podName podNamespace = Except.ok ()
        ∧ runningContainersCheck (pre ++ bad :: post)
            = runningContainersCheck (pre ++ [bad])) := by
  have hlen : 0 < p.OwnerReferences.length := List.length_pos.mpr howner
  constructor
  · intro hall
    have hstatus : VerifyPodStatus (toPodDetails p) = Health.healthy := by
      rcases hnil : p.ContainerStatuses with _ | ⟨cst, rest⟩
      · simp [VerifyPodStatus, hphase, hnil]
      · have hok : runningContainersCheck (cst :: rest) = Except.ok () :=
          runningContainersCheck_ok_of_all_fine _ (hnil ▸ hall)
        simp [VerifyPodStatus, hphase, hnil, hok]
    simp [PodChecks, getPodDetails_of_find cluster podName podNamespace p hfind,
      VerifyPodHasOwner, VerifyPodScheduledToBeDeleted, hlen, hstatus]
  · intro pre bad post hsplit hbad
    refine ⟨?_, runningContainersCheck_short_circuit pre bad post hbad⟩
    rcases runningContainersCheck_error_of_bad pre bad post hbad with ⟨c, herr⟩
    have hstatus : VerifyPodStatus (toPodDetails p) = Health.unhealthy p.Phase := by
      have hne : (p.ContainerStatuses.length != 0) = true := by
        simp [hsplit]
      simp [VerifyPodStatus, hphase, hne, hsplit, herr]
    simp [PodChecks, getPodDetails_of_find cluster podName podNamespace p hfind,
      VerifyPodHasOwner, VerifyPodScheduledToBeDeleted, hlen, hstatus]

/-- Witness for C6: a concrete Running Pod whose single container
terminated with `("Completed", 0)` is rejected as already healthy. -/
theorem podChecks_running_health_witness :
    PodChecks
      [{ UID := "u1", Name := "bar", Namespace := "default", ResourceVersion := "1",
         Phase := "Running",
         ContainerStatuses := [⟨"c1", some ⟨0, "Completed"⟩⟩],
         OwnerReferences := [⟨"apps/v1", "ReplicaSet", "rs", "u9"⟩],
         CreationTimestamp := 0, DeletionTimestamp := none }]
      "bar" "default" = Except.error (.alreadyHealthy "default" "bar") :=
  (podChecks_running_health
    [{ UID := "u1", Name := "bar", Namespace := "default", ResourceVersion := "1",
       Phase := "Running",
       ContainerStatuses := [⟨"c1", some ⟨0, "Completed"⟩⟩],
       OwnerReferences := [⟨"apps/v1", "ReplicaSet", "rs", "u9"⟩],
       CreationTimestamp := 0, DeletionTimestamp := none }]
    "bar" "default"
    { UID := "u1", Name := "bar", Namespace := "default", ResourceVersion := "1",
      Phase := "Running",
      ContainerStatuses := [⟨"c1", some ⟨0, "Completed"⟩⟩],
      OwnerReferences := [⟨"apps/v1", "ReplicaSet", "rs", "u9"⟩],
      CreationTimestamp := 0, DeletionTimestamp := none }
    rfl (by decide) rfl rfl).1 (by decide)

/-! ## C10 — unrecognized phases fall through to Unhealthy -/

/-- C10: for every Pod the fetch finds, owned, whose phase string is
none of the five recognized values, the classifier's default branch
returns Unhealthy, so `PodChecks` returns success: the Pod is deemed
eligible for deletion rather than skipped or given a distinct error. -/
theorem podChecks_unrecognized_phase_eligible
    (cluster : List V1Pod) (podName podNamespace : String) (p : V1Pod)
    (hfind : clusterGetPod cluster podName podNamespace = some p)
    (howner : p.OwnerReferences ≠ [])
    (_hdel : p.DeletionTimestamp = none)
    (h1 : p.Phase ≠ "Pending") (h2 : p.Phase ≠ "Running")
    (h3 : p.Phase ≠ "Succeeded") (h4 : p.Phase ≠ "Failed")
    (h5 : p.Phase ≠ "Unknown") :
    VerifyPodStatus (toPodDetails p) = Health.unhealthy p.Phase
    ∧ PodChecks cluster podName podNamespace = Except.ok () := by
  have hlen : 0 < p.OwnerReferences.length := List.length_pos.mpr howner
  have hstatus : VerifyPodStatus (toPodDetails p) = Health.unhealthy p.Phase := by
    simp [VerifyPodStatus, h1, h2, h3, h4, h5]
  refine ⟨hstatus, ?_⟩
  simp [PodChecks, getPodDetails_of_find cluster podName podNamespace p hfind,
    VerifyPodHasOwner, VerifyPodScheduledToBeDeleted, hlen, hstatus]

/-- Witness for C10: a concrete owned Pod with the unrecognized phase
string `"Evicted"` is classified Unhealthy and passes `PodChecks`. -/
theorem podChecks_unrecognized_phase_eligible_witness :
    PodChecks
      [{ UID := "u1", Name := "foo", Namespace := "default", ResourceVersion := "1",
         Phase := "Evicted", ContainerStatuses := [],
         OwnerReferences := [⟨"apps/v1", "ReplicaSet", "rs", "u9"⟩],
         CreationTimestamp := 0, DeletionTimestamp := none }]
      "foo" "default" = Except.ok () :=
  (podChecks_unrecognized_phase_eligible
    [{ UID := "u1", Name := "foo", Namespace := "default", ResourceVersion := "1",
       Phase := "Evicted", ContainerStatuses := [],
       OwnerReferences := [⟨"apps/v1", "ReplicaSet", "rs", "u9"⟩],
       CreationTimestamp := 0, DeletionTimestamp := none }]
    "foo" "default"
    { UID := "u1", Name := "foo", Namespace := "default", ResourceVersion := "1",
      Phase := "Evicted", ContainerStatuses := [],
      OwnerReferences := [⟨"apps/v1", "ReplicaSet", "rs", "u9"⟩],
      CreationTimestamp := 0, DeletionTimestamp := none }
    rfl (by decide) rfl (by decide) (by decide) (by decide) (by decide) (by decide)).2

/-! ## C1 — the deletion-pending check never sees the timestamp -/

/-- C1 (divergence): a Pod that exists in the cluster with a non-null
deletion timestamp, an owner and phase `Pending`.  The snapshot
`GetPodDetails` builds drops the deletion timestamp (the source never
copies the field), so `VerifyPodScheduledToBeDeleted` passes and
`PodChecks` returns success — the Pod proceeds toward deletion instead
of being rejected as already deleting. -/
theorem podChecks_misses_inflight_deletion :
    clusterGetPod
      [{ UID := "u1", Name := "foo", Namespace := "default", ResourceVersion := "1",
         Phase := "Pending", ContainerStatuses := [],
         OwnerReferences := [⟨"apps/v1", "ReplicaSet", "rs", "u9"⟩],
         CreationTimestamp := 0, DeletionTimestamp := some 1000 }]
      "foo" "default" = some
      { UID := "u1", Name := "foo", Namespace := "default", ResourceVersion := "1",
        Phase := "Pending", ContainerStatuses := [],
        OwnerReferences := [⟨"apps/v1", "ReplicaSet", "rs", "u9"⟩],
        CreationTimestamp := 0, DeletionTimestamp := some 1000 }
    ∧ PodChecks
      [{ UID := "u1", Name := "foo", Namespace := "default", ResourceVersion := "1",
         Phase := "Pending", ContainerStatuses := [],
         OwnerReferences := [⟨"apps/v1", "ReplicaSet", "rs", "u9"⟩],
         CreationTimestamp := 0, DeletionTimestamp := some 1000 }]
      "foo" "default" = Except.ok () :=
  ⟨rfl, rfl⟩

/-! ## C8 — a not-found delete response -/

/-- C8 (counterexample): when the delete call reports not-found, the
source `DeletePod` returns that error unchanged (`if err != nil
{ return err }`), it does not convert it into a benign success. -/
theorem deletePod_notFound_returns_error :
    DeletePod [] "foo" "default" = Except.error (.notFound "default" "foo") := rfl

/-- C8 (amended): a not-found response from the delete call is surfaced
as an error to the caller (which logs it), and no candidate outcome
aborts the per-candidate loop: every candidate in the list receives an
outcome. -/
theorem deletePod_notFound_surfaced
    (cluster : List V1Pod) (pod ns : String)
    (habs : clusterGetPod cluster pod ns = none) :
    DeletePod cluster pod ns = Except.error (.notFound ns pod)
    ∧ ∀ c dryRunMode cands,
        ((processCandidates c dryRunMode cands).1).length = cands.length := by
  constructor
  · simp [DeletePod, clusterDeletePod, habs]
  · intro c dry cands
    induction cands generalizing c with
    | nil => rfl
    | cons cand rest ih =>
      obtain ⟨p1, n1⟩ := cand
      simp [processCandidates, ih]

/-- Witness for the amended C8 at a concrete input: deleting a Pod that
is not in the cluster yields the not-found error. -/
theorem deletePod_notFound_surfaced_witness :
    DeletePod [] "ghost" "ns1" = Except.error (.notFound "ns1" "ghost") :=
  (deletePod_notFound_surfaced [] "ghost" "ns1" rfl).1

/-! ## C9 — dry-run never contacts the cluster -/

/-- C9: for a candidate that passes all validation checks, the loop body
in dry-run mode records the intent to delete and finishes successfully
with the cluster untouched and zero facade delete invocations; moreover
a whole dry-run pass over any candidate list makes zero facade delete
invocations. -/
theorem dryRun_never_deletes
    (cluster : List V1Pod) (pod ns : String)
    (hok : PodChecks cluster pod ns = Except.ok ()) :
    actOnCandidate cluster true pod ns =
      ⟨.dryRunWouldDelete ns pod, cluster, []⟩
    ∧ ∀ c cands, (processCandidates c true cands).2.2 = [] := by
  constructor
  · simp [actOnCandidate, hok]
  · intro c cands
    induction cands generalizing c with
    | nil => rfl
    | cons cand rest ih =>
      obtain ⟨p1, n1⟩ := cand
      rcases hpc : PodChecks c p1 n1 with err | u
      · simp [processCandidates, actOnCandidate, hpc, ih]
      · simp [processCandidates, actOnCandidate, hpc, ih]

/-- Witness for C9: a concrete eligible Pending Pod in dry-run mode is
only logged, the cluster stays as it was and no delete call is made. -/
theorem dryRun_never_deletes_witness :
    actOnCandidate
      [{ UID := "u1", Name := "foo", Namespace := "default", ResourceVersion := "1",
         Phase := "Pending", ContainerStatuses := [],
         OwnerReferences := [⟨"apps/v1", "ReplicaSet", "rs", "u9"⟩],
         CreationTimestamp := 0, DeletionTimestamp := none }]
      true "foo" "default" =
      ⟨.dryRunWouldDelete "default" "foo",
       [{ UID := "u1", Name := "foo", Namespace := "default", ResourceVersion := "1",
          Phase := "Pending", ContainerStatuses := [],
          OwnerReferences := [⟨"apps/v1", "ReplicaSet", "rs", "u9"⟩],
          CreationTimestamp := 0, DeletionTimestamp := none }], []⟩ :=
  (dryRun_never_deletes
    [{ UID := "u1", Name := "foo", Namespace := "default", ResourceVersion := "1",
       Phase := "Pending", ContainerStatuses := [],
       OwnerReferences := [⟨"apps/v1", "ReplicaSet", "rs", "u9"⟩],
       CreationTimestamp := 0, DeletionTimestamp := none }]
    "foo" "default" rfl).1

/-! ## C2 — the candidate deduplicator -/

theorem contains_iff (l : List String) (v : String) :
    contains l v = true ↔ v ∈ l := by
  unfold contains
  rw [List.any_eq_true]
  constructor
  · rintro ⟨s, hs, hb⟩
    rwa [show v = s from beq_iff_eq.mp hb]
  · intro hv
    exact ⟨v, hv, beq_iff_eq.mpr rfl⟩

theorem contains_append (l l' : List String) (v : String) :
    contains (l ++ l') v = (contains l v || contains l' v) := by
  simp [contains, List.any_append]

theorem mapAssign_length_le (m : List (String × String)) (k v : String) :
    (mapAssign m k v).length ≤ m.length + 1 := by
  by_cases h : m.any (fun kv => kv.1 == k) = true
  · simp [mapAssign, h]
  · simp [mapAssign, h]

theorem mapAssign_self_mem (m : List (String × String)) (k v : String) :
    (k, v) ∈ mapAssign m k v := by
  by_cases h : m.any (fun kv => kv.1 == k) = true
  · rcases List.any_eq_true.mp h with ⟨kv, hkv, hk⟩
    unfold mapAssign
    rw [if_pos h]
    exact List.mem_map.mpr ⟨kv, hkv, by simp [hk]⟩
  · unfold mapAssign
    rw [if_neg h]
    exact List.mem_append_right _ (List.mem_singleton.mpr rfl)

theorem mapAssign_mem_of_ne (m : List (String × String)) (k v k' v' : String)
    (hmem : (k', v') ∈ m) (hne : k' ≠ k) :
    (k', v') ∈ mapAssign m k v := by
  by_cases h : m.any (fun kv => kv.1 == k) = true
  · unfold mapAssign
    rw [if_pos h]
    refine List.mem_map.mpr ⟨(k', v'), hmem, ?_⟩
    simp [hne]
  · unfold mapAssign
    rw [if_neg h]
    exact List.mem_append_left _ hmem

theorem getUniqueAux_length_le (events : List PodEvent) :
    ∀ m seen, (GetUniqueListOfPodsAux events m seen).length ≤ m.length + events.length := by
  induction events with
  | nil => intro m seen; simp [GetUniqueListOfPodsAux]
  | cons e rest ih =>
    intro m seen
    by_cases h : contains seen e.UID = true
    · calc (GetUniqueListOfPodsAux (e :: rest) m seen).length
          = (GetUniqueListOfPodsAux rest m seen).length := by
            simp [GetUniqueListOfPodsAux, h]
        _ ≤ m.length + rest.length := ih m seen
        _ ≤ m.length + (rest.length + 1) := by omega
    · calc (GetUniqueListOfPodsAux (e :: rest) m seen).length
          = (GetUniqueListOfPodsAux rest
              (mapAssign m e.PodName e.PodNamespace) (seen ++ [e.UID])).length := by
            simp [GetUniqueListOfPodsAux, h]
        _ ≤ (mapAssign m e.PodName e.PodNamespace).length + rest.length := ih _ _
        _ ≤ (m.length + 1) + rest.length := by
            have := mapAssign_length_le m e.PodName e.PodNamespace
            omega
        _ = m.length + (rest.length + 1) := by omega

theorem getUniqueAux_length_eq (events : List PodEvent) :
    ∀ m seen,
      (∀ e ∈ events, contains seen e.UID = false →
        m.any (fun kv => kv.1 == e.PodName) = false) →
      (∀ e1 ∈ events, ∀ e2 ∈ events, e1.PodName = e2.PodName → e1.UID = e2.UID) →
      (GetUniqueListOfPodsAux events m seen).length
        = m.length + ((events.map (fun e => e.UID)).toFinset \ seen.toFinset).card := by
  induction events with
  | nil => intro m seen _ _; simp [GetUniqueListOfPodsAux]
  | cons e rest ih =>
    intro m seen Hfresh Hinj
    have Hinj' : ∀ e1 ∈ rest, ∀ e2 ∈ rest, e1.PodName = e2.PodName → e1.UID = e2.UID :=
      fun e1 h1 e2 h2 => Hinj e1 (List.mem_cons_of_mem _ h1) e2 (List.mem_cons_of_mem _ h2)
    cases hseen : contains seen e.UID with
    | true =>
      have hmem : e.UID ∈ seen.toFinset :=
        List.mem_toFinset.mpr ((contains_iff _ _).mp hseen)
      have Hfresh' : ∀ x ∈ rest, contains seen x.UID = false →
          m.any (fun kv => kv.1 == x.PodName) = false :=
        fun x hx => Hfresh x (List.mem_cons_of_mem _ hx)
      rw [show GetUniqueListOfPodsAux (e :: rest) m seen
            = GetUniqueListOfPodsAux rest m seen by
          simp [GetUniqueListOfPodsAux, hseen]]
      rw [ih m seen Hfresh' Hinj']
      congr 2
      rw [List.map_cons, List.toFinset_cons, Finset.insert_sdiff_of_mem _ hmem]
    | false =>
      have hany : m.any (fun kv => kv.1 == e.PodName) = false :=
        Hfresh e (List.mem_cons_self _ _) hseen
      have hma : mapAssign m e.PodName e.PodNamespace
          = m ++ [(e.PodName, e.PodNamespace)] := by
        simp [mapAssign, hany]
      have Hfresh' : ∀ x ∈ rest, contains (seen ++ [e.UID]) x.UID = false →
          (mapAssign m e.PodName e.PodNamespace).any
            (fun kv => kv.1 == x.PodName) = false := by
        intro x hx hcx
        rw [contains_append, Bool.or_eq_false_iff] at hcx
        obtain ⟨hcs, hcu⟩ := hcx
        have hxu : x.UID ≠ e.UID := by
          intro hcontra
          simp [contains, hcontra] at hcu
        have hxn : e.PodName ≠ x.PodName := by
          intro hcontra
          exact hxu (Hinj x (List.mem_cons_of_mem _ hx) e (List.mem_cons_self _ _)
            hcontra.symm)
        rw [hma]
        simp only [List.any_append, Bool.or_eq_false_iff]
        refine ⟨Hfresh x (List.mem_cons_of_mem _ hx) hcs, ?_⟩
        simp [hxn]
      rw [show GetUniqueListOfPodsAux (e :: rest) m seen
            = GetUniqueListOfPodsAux rest
                (mapAssign m e.PodName e.PodNamespace) (seen ++ [e.UID]) by
          simp [GetUniqueListOfPodsAux, hseen]]
      rw [ih _ _ Hfresh' Hinj']
      rw [hma]
      have hulen : (m ++ [(e.PodName, e.PodNamespace)]).length = m.length + 1 := by
        simp
      rw [hulen]
      have hseenF : (seen ++ [e.UID]).toFinset = insert e.UID seen.toFinset := by
        simp [List.toFinset_append, Finset.union_comm, Finset.insert_eq]
      have hnot : e.UID ∉ seen.toFinset := by
        intro hcontra
        rw [(contains_iff seen e.UID).mpr (List.mem_toFinset.mp hcontra)] at hseen
        exact Bool.true_eq_false.mp hseen
      rw [hseenF, List.map_cons, List.toFinset_cons, Finset.sdiff_insert,
        Finset.insert_sdiff_of_not_mem _ hnot]
      have hcard : ∀ X : Finset String,
          (insert e.UID X).card = 1 + (X.erase e.UID).card := by
        intro X
        by_cases hu : e.UID ∈ X
        · rw [Finset.insert_eq_self.mpr hu]
          have h1 := Finset.card_erase_add_one hu
          omega
        · rw [Finset.card_insert_of_not_mem hu, Finset.erase_eq_of_not_mem hu]
          omega
      rw [hcard]
      omega

theorem getUniqueAux_preserves_key (events : List PodEvent) :
    ∀ m seen k v, (k, v) ∈ m →
      (∀ e ∈ events, e.PodName = k → contains seen e.UID = true) →
      (k, v) ∈ GetUniqueListOfPodsAux events m seen := by
  induction events with
  | nil => intro m seen k v hmem _; simpa [GetUniqueListOfPodsAux] using hmem
  | cons e rest ih =>
    intro m seen k v hmem hkey
    cases hseen : contains seen e.UID with
    | true =>
      rw [show GetUniqueListOfPodsAux (e :: rest) m seen
            = GetUniqueListOfPodsAux rest m seen by
          simp [GetUniqueListOfPodsAux, hseen]]
      exact ih m seen k v hmem (fun x hx => hkey x (List.mem_cons_of_mem _ hx))
    | false =>
      have hne : e.PodName ≠ k := by
        intro hcontra
        rw [hkey e (List.mem_cons_self _ _) hcontra] at hseen
        exact Bool.true_eq_false.mp hseen
      rw [show GetUniqueListOfPodsAux (e :: rest) m seen
            = GetUniqueListOfPodsAux rest
                (mapAssign m e.PodName e.PodNamespace) (seen ++ [e.UID]) by
          simp [GetUniqueListOfPodsAux, hseen]]
      refine ih _ _ k v
        (mapAssign_mem_of_ne m e.PodName e.PodNamespace k v hmem
          (fun hcontra => hne hcontra.symm)) ?_
      intro x hx hxk
      rw [contains_append, hkey x (List.mem_cons_of_mem _ hx) hxk]
      rfl

theorem getUniqueAux_first_occurrence (events : List PodEvent) :
    ∀ m seen u e,
      events.find? (fun x => x.UID == u) = some e →
      contains seen u = false →
      (∀ e1 ∈ events, ∀ e2 ∈ events, e1.PodName = e2.PodName → e1.UID = e2.UID) →
      (e.PodName, e.PodNamespace) ∈ GetUniqueListOfPodsAux events m seen := by
  induction events with
  | nil => intro m seen u e hfind _ _; simp at hfind
  | cons h rest ih =>
    intro m seen u e hfind hcu Hinj
    have Hinj' : ∀ e1 ∈ rest, ∀ e2 ∈ rest, e1.PodName = e2.PodName → e1.UID = e2.UID :=
      fun e1 h1 e2 h2 => Hinj e1 (List.mem_cons_of_mem _ h1) e2 (List.mem_cons_of_mem _ h2)
    cases hb : (h.UID == u) with
    | true =>
      have heq : e = h := by
        simp only [List.find?, hb, Option.some.injEq] at hfind
        exact hfind.symm
      subst heq
      have huid : e.UID = u := beq_iff_eq.mp hb
      have hseen : contains seen e.UID = false := by rw [huid]; exact hcu
      rw [show GetUniqueListOfPodsAux (e :: rest) m seen
            = GetUniqueListOfPodsAux rest
                (mapAssign m e.PodName e.PodNamespace) (seen ++ [e.UID]) by
          simp [GetUniqueListOfPodsAux, hseen]]
      refine getUniqueAux_preserves_key rest _ _ _ _
        (mapAssign_self_mem m e.PodName e.PodNamespace) ?_
      intro x hx hxname
      have hxu : x.UID = e.UID :=
        Hinj x (List.mem_cons_of_mem _ hx) e (List.mem_cons_self _ _) hxname
      rw [contains_append, hxu]
      have : contains [e.UID] e.UID = true := (contains_iff _ _).mpr (List.mem_singleton.mpr rfl)
      rw [this]
      exact Bool.or_true _
    | false =>
      have hfind' : rest.find? (fun x => x.UID == u) = some e := by
        simp only [List.find?, hb] at hfind
        exact hfind
      cases hseen : contains seen h.UID with
      | true =>
        rw [show GetUniqueListOfPodsAux (h :: rest) m seen
              = GetUniqueListOfPodsAux rest m seen by
            simp [GetUniqueListOfPodsAux, hseen]]
        exact ih m seen u e hfind' hcu Hinj'
      | false =>
        rw [show GetUniqueListOfPodsAux (h :: rest) m seen
              = GetUniqueListOfPodsAux rest
                  (mapAssign m h.PodName h.PodNamespace) (seen ++ [h.UID]) by
            simp [GetUniqueListOfPodsAux, hseen]]
        refine ih _ _ u e hfind' ?_ Hinj'
        rw [contains_append, hcu]
        have hne : u ≠ h.UID := fun hcontra => by
          rw [hcontra] at hb
          simp at hb
        have : contains [h.UID] u = false := by
          simp [contains, hne]
        rw [this]
        rfl

/-- C2 (counterexample): two Events with distinct UIDs (`u1`, `u2`) but
the same Pod name `foo` in different namespaces.  The candidate map keys
on the name, so the second Event overwrites the first entry: the map has
one entry while two unique UIDs occur, and the surviving namespace is
the one of the later Event. -/
theorem candidate_map_not_one_entry_per_uid :
    (GetUniqueListOfPods
      [⟨"u1", "foo", "default", "1", "R", "Warning", "m", 0, 0⟩,
       ⟨"u2", "foo", "test", "1", "R", "Warning", "m", 0, 0⟩]).length = 1
    ∧ ((([⟨"u1", "foo", "default", "1", "R", "Warning", "m", 0, 0⟩,
          ⟨"u2", "foo", "test", "1", "R", "Warning", "m", 0, 0⟩] : List PodEvent).map
            (fun e => e.UID)).toFinset).card = 2
    ∧ GetUniqueListOfPods
        [⟨"u1", "foo", "default", "1", "R", "Warning", "m", 0, 0⟩,
         ⟨"u2", "foo", "test", "1", "R", "Warning", "m", 0, 0⟩]
        = [("foo", "test")] := by
  refine ⟨rfl, ?_, rfl⟩
  rfl

/-- C2 (amended): for every list of matching Events, the candidate map
has size at most the number of Events; and provided any two Events that
carry the same Pod name carry the same UID, the map has exactly one
entry per unique Pod UID (its size is the number of distinct UIDs) and
the first Event of each UID in list order contributes its
(name, namespace) pair to the map. -/
theorem candidate_map_dedup_amended (events : List PodEvent)
    (Hinj : ∀ e1 ∈ events, ∀ e2 ∈ events, e1.PodName = e2.PodName → e1.UID = e2.UID) :
    (GetUniqueListOfPods events).length ≤ events.length
    ∧ (GetUniqueListOfPods events).length
        = ((events.map (fun e => e.UID)).toFinset).card
    ∧ ∀ u e, events.find? (fun x => x.UID == u) = some e →
        (e.PodName, e.PodNamespace) ∈ GetUniqueListOfPods events := by
  have hcount : (GetUniqueListOfPods events).length
      = ((events.map (fun e => e.UID)).toFinset).card := by
    have h := getUniqueAux_length_eq events [] []
      (fun e _ _ => rfl) Hinj
    simpa [GetUniqueListOfPods] using h
  refine ⟨?_, hcount, ?_⟩
  · rw [hcount]
    calc ((events.map (fun e => e.UID)).toFinset).card
        ≤ (events.map (fun e => e.UID)).length := List.toFinset_card_le _
      _ = events.length := List.length_map _ _
  · intro u e hfind
    exact getUniqueAux_first_occurrence events [] [] u e hfind rfl Hinj

/-- Witness for the amended C2 at a concrete input: three Events, UID
`u1` twice under name `a` and UID `u2` once under name `b`.  The map
size equals the number of distinct UIDs and the first `u1` Event decides
the entry for `a`. -/
theorem candidate_map_dedup_amended_witness :
    (GetUniqueListOfPods
      [⟨"u1", "a", "ns1", "1", "R", "W", "m", 0, 0⟩,
       ⟨"u1", "a", "ns2", "1", "R", "W", "m", 0, 0⟩,
       ⟨"u2", "b", "ns3", "1", "R", "W", "m", 0, 0⟩]).length
      = ((([⟨"u1", "a", "ns1", "1", "R", "W", "m", 0, 0⟩,
            ⟨"u1", "a", "ns2", "1", "R", "W", "m", 0, 0⟩,
            ⟨"u2", "b", "ns3", "1", "R", "W", "m", 0, 0⟩] : List PodEvent).map
              (fun e => e.UID)).toFinset).card
    ∧ ("a", "ns1") ∈ GetUniqueListOfPods
        [⟨"u1", "a", "ns1", "1", "R", "W", "m", 0, 0⟩,
         ⟨"u1", "a", "ns2", "1", "R", "W", "m", 0, 0⟩,
         ⟨"u2", "b", "ns3", "1", "R", "W", "m", 0, 0⟩] := by
  have h := candidate_map_dedup_amended
    [⟨"u1", "a", "ns1", "1", "R", "W", "m", 0, 0⟩,
     ⟨"u1", "a", "ns2", "1", "R", "W", "m", 0, 0⟩,
     ⟨"u2", "b", "ns3", "1", "R", "W", "m", 0, 0⟩]
    (by decide)
  exact ⟨h.2.1, h.2.2 "u1" ⟨"u1", "a", "ns1", "1", "R", "W", "m", 0, 0⟩ rfl⟩

end PodRestarter
